import Mathlib

/-!
Verification of the `aig` command-line assistant (Go sources) against its
natural-language specification.  Go strings are modelled as `List Char`
(`Str`), and the Go standard-library string operations used by the program
are embedded as executable Lean functions.  All inputs exercised by the
claims are ASCII, so the ASCII fast paths of the Go functions are modelled.
-/

namespace Aig

/-- Go strings, modelled as lists of characters. -/
abbrev Str := List Char

/-- Coercion from a Lean string literal to the model type. -/
def str (s : String) : Str := s.data

/-- Whitespace set of Go `strings.TrimSpace` (ASCII fast path:
space, tab, newline, vertical tab, form feed, carriage return). -/
def goIsSpace (c : Char) : Bool :=
  c = ' ' || c = '\t' || c = '\n' || c = '\x0b' || c = '\x0c' || c = '\r'

/-- Left part of Go `strings.TrimSpace`. -/
def trimLeft (s : Str) : Str := s.dropWhile goIsSpace

/-- Right part of Go `strings.TrimSpace`. -/
def trimRight (s : Str) : Str := (s.reverse.dropWhile goIsSpace).reverse

/-- Go `strings.TrimSpace`. -/
def goTrimSpace (s : Str) : Str := trimRight (trimLeft s)

/-- Go `strings.Split(s, sep)` for a one-character separator
(`Split("", sep) = [""]`, exactly as in Go). -/
def splitChar (c : Char) : Str → List Str
  | [] => [[]]
  | a :: as =>
    match splitChar c as with
    | [] => [[]]
    | h :: t => if a = c then [] :: h :: t else (a :: h) :: t

/-- Split at the first occurrence of a character, if any: the core of Go
`strings.SplitN(s, sep, 2)` for a one-character separator. -/
def splitFirst (c : Char) : Str → Option (Str × Str)
  | [] => none
  | a :: as =>
    if a = c then some ([], as)
    else (splitFirst c as).map (fun p => (a :: p.1, p.2))

/-- Go `strings.Contains(s, sub)`: substring search, scanning every start
position for a prefix match. -/
def goContains : Str → Str → Bool
  | [], sub => sub.isEmpty
  | a :: t, sub => sub.isPrefixOf (a :: t) || goContains t sub

/-- Go `strings.HasPrefix(s, pre)`. -/
def hasPref (s pre : Str) : Bool := pre.isPrefixOf s

/-- Go `strings.TrimPrefix(s, pre)`. -/
def dropPref (s pre : Str) : Str :=
  if pre.isPrefixOf s then s.drop pre.length else s

/-- Go `strings.TrimSuffix(s, suf)`. -/
def dropSuf (s suf : Str) : Str :=
  if suf.isSuffixOf s then s.take (s.length - suf.length) else s

/-- Go `strings.Join(xs, sep)`. -/
def goJoin (sep : Str) (xs : List Str) : Str := List.intercalate sep xs

/-- ASCII lower-casing of one character (Go `unicode.ToLower`, ASCII path;
all branch names in scope are ASCII). -/
def lowerChar (c : Char) : Char :=
  if 'A' ≤ c ∧ c ≤ 'Z' then Char.ofNat (c.toNat + 32) else c

/-- Go `strings.ToLower` (ASCII path). -/
def goToLower (s : Str) : Str := s.map lowerChar

/-- ASCII upper-casing of one character (Go `unicode.ToTitle`, ASCII path). -/
def upperChar (c : Char) : Char :=
  if 'a' ≤ c ∧ c ≤ 'z' then Char.ofNat (c.toNat - 32) else c

/-- Word separator test of Go `strings.Title` (ASCII path: letters, digits
and underscore are not separators; everything else is). -/
def goIsSeparator (c : Char) : Bool := !(c.isAlphanum || c = '_')

/-- Character walk of Go `strings.Title`: upper-case a character that
follows a separator (or starts the string). -/
def goTitleAux (prev : Bool) : Str → Str
  | [] => []
  | c :: cs => (if prev then upperChar c else c) :: goTitleAux (goIsSeparator c) cs

/-- Go `strings.Title`. -/
def goTitle (s : Str) : Str := goTitleAux true s

/-- Decimal rendering of a natural number (Go `fmt.Sprintf("%d", n)` for the
non-negative counts that occur in the program). -/
def natStr (n : Nat) : Str := (Nat.repr n).data

/-- Go `path/filepath.Base` on a Unix path. -/
def filepathBase (path : Str) : Str :=
  if path = [] then ['.']
  else
    let p1 := (path.reverse.dropWhile (fun c => c = '/')).reverse
    if p1 = [] then ['/']
    else (p1.reverse.takeWhile (fun c => decide (c ≠ '/'))).reverse

/-! ### Basic lemmas about the string model -/

theorem splitChar_ne_nil (c : Char) (s : Str) : splitChar c s ≠ [] := by
  induction s with
  | nil => simp [splitChar]
  | cons a as ih =>
    simp only [splitChar]
    rcases h : splitChar c as with _ | ⟨h1, t⟩
    · simp
    · by_cases hac : a = c <;> simp [hac]

theorem splitChar_of_not_mem {c : Char} {s : Str} (h : c ∉ s) :
    splitChar c s = [s] := by
  induction s with
  | nil => rfl
  | cons a as ih =>
    have ha : a ≠ c := fun e => h (e ▸ List.mem_cons_self a as)
    have has : c ∉ as := fun m => h (List.mem_cons_of_mem _ m)
    simp [splitChar, ih has, ha]

theorem splitChar_append_cons {c : Char} {l : Str} (h : c ∉ l) (r : Str) :
    splitChar c (l ++ c :: r) = l :: splitChar c r := by
  induction l with
  | nil =>
    simp only [List.nil_append, splitChar]
    rcases hs : splitChar c r with _ | ⟨h1, t⟩
    · exact absurd hs (splitChar_ne_nil c r)
    · simp
  | cons a as ih =>
    have ha : a ≠ c := fun e => h (e ▸ List.mem_cons_self a as)
    have has : c ∉ as := fun m => h (List.mem_cons_of_mem _ m)
    show splitChar c (a :: (as ++ c :: r)) = _
    simp only [splitChar]
    rw [ih has]
    simp [ha]

theorem splitChar_head (c : Char) (s : Str) :
    ∃ t, splitChar c s = (s.takeWhile (fun x => decide (x ≠ c))) :: t := by
  induction s with
  | nil => exact ⟨[], rfl⟩
  | cons a as ih =>
    rcases ih with ⟨t, ht⟩
    by_cases hac : a = c
    · exact ⟨as.takeWhile (fun x => decide (x ≠ c)) :: t,
        by simp [splitChar, ht, hac]⟩
    · exact ⟨t, by simp [splitChar, ht, hac]⟩

theorem infix_of_mem_splitChar {c : Char} {s x : Str}
    (h : x ∈ splitChar c s) : x <:+: s := by
  induction s generalizing x with
  | nil =>
    simp [splitChar] at h
    simp [h]
  | cons a as ih =>
    simp only [splitChar] at h
    rcases hs : splitChar c as with _ | ⟨h1, t⟩
    · exact absurd hs (splitChar_ne_nil c as)
    · rw [hs] at h
      by_cases hac : a = c
      · simp only [hac, if_true] at h
        rcases List.mem_cons.mp h with rfl | hmem
        · exact List.nil_infix
        · exact List.infix_cons (ih (hs ▸ hmem))
      · simp only [hac, if_false] at h
        rcases List.mem_cons.mp h with rfl | hmem
        · rcases splitChar_head c as with ⟨t', ht'⟩
          rw [hs] at ht'
          have h1eq : h1 = as.takeWhile (fun x => decide (x ≠ c)) :=
            (List.cons.injEq _ _ _ _ ▸ ht').1
          have hpre : (a :: h1) <+: (a :: as) :=
            List.cons_prefix_cons.mpr ⟨rfl, h1eq ▸ List.takeWhile_prefix _⟩
          exact List.IsPrefix.isInfix hpre
        · exact List.infix_cons (ih (hs ▸ List.mem_cons_of_mem _ hmem))

theorem goContains_iff {s sub : Str} : goContains s sub = true ↔ sub <:+: s := by
  induction s with
  | nil =>
    simp only [goContains, List.isEmpty_iff, List.infix_nil]
  | cons a t ih =>
    simp only [goContains, Bool.or_eq_true, List.isPrefixOf_iff_prefix, ih]
    exact (List.infix_cons_iff).symm

theorem goContains_singleton {c : Char} {s : Str} (h : c ∈ s) :
    goContains s [c] = true := by
  rcases List.append_of_mem h with ⟨u, v, rfl⟩
  exact goContains_iff.mpr ⟨u, v, by simp⟩

theorem goContains_of_mem_append {s sub : Str} {u v : Str}
    (h : s = u ++ sub ++ v) : goContains s sub = true :=
  goContains_iff.mpr ⟨u, v, h.symm⟩

theorem not_goContains_mono {s sub x : Str} (hx : x <:+: s)
    (h : goContains s sub = false) : goContains x sub = false := by
  rcases hxx : goContains x sub with _ | _
  · rfl
  · exact absurd (goContains_iff.mpr ((goContains_iff.mp hxx).trans hx)) (by simp [h])

theorem hasPref_iff {s pre : Str} : hasPref s pre = true ↔ pre <+: s :=
  List.isPrefixOf_iff_prefix

theorem trimLeft_cons_not {a : Char} {s : Str} (h : goIsSpace a = false) :
    trimLeft (a :: s) = a :: s := by
  simp [trimLeft, List.dropWhile_cons, h]

theorem trimRight_concat_not {b : Char} {s : Str} (h : goIsSpace b = false) :
    trimRight (s ++ [b]) = s ++ [b] := by
  simp [trimRight, List.dropWhile_cons, h]

theorem goTrimSpace_eq_self_of_ends {a b : Char} {mid : Str}
    (ha : goIsSpace a = false) (hb : goIsSpace b = false) :
    goTrimSpace (a :: mid ++ [b]) = a :: mid ++ [b] := by
  unfold goTrimSpace
  rw [show a :: mid ++ [b] = a :: (mid ++ [b]) by simp,
    trimLeft_cons_not ha,
    show a :: (mid ++ [b]) = (a :: mid) ++ [b] by simp,
    trimRight_concat_not hb]

theorem goTrimSpace_singleton {a : Char} (ha : goIsSpace a = false) :
    goTrimSpace [a] = [a] := by
  simpa [goTrimSpace, trimLeft_cons_not ha] using
    trimRight_concat_not (s := []) ha

theorem length_trimLeft_le (s : Str) : (trimLeft s).length ≤ s.length :=
  (List.dropWhile_suffix _).length_le

theorem length_trimRight_le (s : Str) : (trimRight s).length ≤ s.length := by
  simpa [trimRight] using (List.dropWhile_suffix (l := s.reverse) goIsSpace).length_le

theorem trim_head_not_space {s : Str} (h : goTrimSpace s = s)
    {a : Char} {t : Str} (hs : s = a :: t) : goIsSpace a = false := by
  by_contra hsp
  have hsp' : goIsSpace a = true := by
    rcases hq : goIsSpace a with _ | _
    · exact absurd hq hsp
    · rfl
  have h1 : trimLeft s = t.dropWhile goIsSpace := by
    simp [hs, trimLeft, List.dropWhile_cons, hsp']
  have hlen : (goTrimSpace s).length ≤ t.length := by
    calc (goTrimSpace s).length ≤ (trimLeft s).length := length_trimRight_le _
    _ = (t.dropWhile goIsSpace).length := by rw [h1]
    _ ≤ t.length := (List.dropWhile_suffix _).length_le
  rw [h, hs] at hlen
  simp only [List.length_cons] at hlen
  omega

theorem trimLeft_eq_self_of_trim {s : Str} (h : goTrimSpace s = s) :
    trimLeft s = s := by
  have hsuf : trimLeft s <:+ s := List.dropWhile_suffix _
  refine hsuf.eq_of_length ?_
  have h1 : (goTrimSpace s).length ≤ (trimLeft s).length := length_trimRight_le _
  have h2 := length_trimLeft_le s
  rw [h] at h1
  omega

theorem trim_last_not_space {s : Str} (h : goTrimSpace s = s)
    {u : Str} {b : Char} (hs : s = u ++ [b]) : goIsSpace b = false := by
  by_contra hsp
  have hsp' : goIsSpace b = true := by
    rcases hq : goIsSpace b with _ | _
    · exact absurd hq hsp
    · rfl
  have hR : trimRight s = s := by
    have := trimLeft_eq_self_of_trim h
    calc trimRight s = trimRight (trimLeft s) := by rw [this]
    _ = s := h
  have h1 : (trimRight s).length ≤ u.length := by
    have : s.reverse = b :: u.reverse := by simp [hs]
    calc (trimRight s).length = (s.reverse.dropWhile goIsSpace).length := by
          simp [trimRight]
    _ = ((u.reverse).dropWhile goIsSpace).length := by
          rw [this]
          simp [List.dropWhile_cons, hsp']
    _ ≤ u.reverse.length := (List.dropWhile_suffix _).length_le
    _ = u.length := by simp
  rw [hR, hs] at h1
  simp at h1

theorem splitFirst_append_cons {c : Char} {l : Str} (h : c ∉ l) (r : Str) :
    splitFirst c (l ++ c :: r) = some (l, r) := by
  induction l with
  | nil => simp [splitFirst]
  | cons a as ih =>
    have ha : a ≠ c := fun e => h (e ▸ List.mem_cons_self a as)
    have has : c ∉ as := fun m => h (List.mem_cons_of_mem _ m)
    simp [splitFirst, ha, ih has]

theorem splitFirst_of_not_mem {c : Char} {l : Str} (h : c ∉ l) :
    splitFirst c l = none := by
  induction l with
  | nil => rfl
  | cons a as ih =>
    have ha : a ≠ c := fun e => h (e ▸ List.mem_cons_self a as)
    have has : c ∉ as := fun m => h (List.mem_cons_of_mem _ m)
    simp [splitFirst, ha, ih has]

/-! ### Data model (`internal/ai/provider.go`) -/

/-- `ai.CommitMessage` (fields `Type`, `Scope`, `Subject`, `Body`, `Footer`,
`FullMessage`; `Type` is renamed `ctype` because `Type` is a Lean keyword). -/
structure CommitMessage where
  ctype : Str
  scope : Str
  subject : Str
  body : Str
  footer : Str
  fullMessage : Str
  deriving Repr, DecidableEq

/-- `ai.CommitOptions`. -/
structure CommitOptions where
  ctype : Str
  scope : Str
  conventional : Bool
  deriving Repr, DecidableEq

/-- `ai.Issue` (defaults "medium"/"general" are filled by the parser). -/
structure Issue where
  severity : Str
  itype : Str
  file : Str
  line : Int
  description : Str
  suggestion : Str
  deriving Repr, DecidableEq

/-- `ai.Suggestion` (field `Example` is renamed `exampleText` because
`example` is a Lean keyword). -/
structure Suggestion where
  stype : Str
  file : Str
  line : Int
  description : Str
  exampleText : Str
  deriving Repr, DecidableEq

/-- `ai.SecurityRisk`. -/
structure SecurityRisk where
  severity : Str
  rtype : Str
  description : Str
  mitigation : Str
  deriving Repr, DecidableEq

/-- `ai.PerformanceIssue`. -/
structure PerformanceIssue where
  ptype : Str
  description : Str
  impact : Str
  solution : Str
  deriving Repr, DecidableEq

/-- `ai.Review`. -/
structure Review where
  summary : Str
  issues : List Issue
  suggestions : List Suggestion
  securityRisks : List SecurityRisk
  performance : List PerformanceIssue
  deriving Repr, DecidableEq

/-- `ai.ReviewOptions`. -/
structure ReviewOptions where
  focusAreas : List Str
  verbose : Bool
  security : Bool
  performance : Bool
  deriving Repr, DecidableEq

/-! ### Commit-message normalization (`parseCommitMessage`, gemini.go) -/

/-- Footer-marker test from the body/footer loop of `parseCommitMessage`. -/
def isFooterLine (l : Str) : Bool :=
  hasPref l (str "BREAKING CHANGE:") || hasPref l (str "Fixes #") ||
  hasPref l (str "Closes #") || hasPref l (str "Resolves #")

/-- Body/footer scan of `parseCommitMessage`: walk the lines from index 2,
stopping at the first footer marker; the footer runs from that line to the
end (Go `footerStart` and the slices built from it). -/
def scanBodyFooter : List Str → (List Str × List Str)
  | [] => ([], [])
  | l :: ls =>
    if isFooterLine l then ([], l :: ls)
    else
      let p := scanBodyFooter ls
      (l :: p.1, p.2)

/-- Header split of `parseCommitMessage`: the conventional-format parse of
the first line, returning (Type, Scope, Subject). -/
def parseHeader (l0 : Str) (conventional : Bool) : Str × Str × Str :=
  if conventional && goContains l0 (str ":") then
    match splitFirst ':' l0 with
    | some (p0, p1) =>
      let typeAndScope := goTrimSpace p0
      if goContains typeAndScope (str "(") && goContains typeAndScope (str ")") then
        match splitFirst '(' typeAndScope with
        | some (tp0, tp1) =>
          (goTrimSpace tp0, dropSuf (goTrimSpace tp1) (str ")"), goTrimSpace p1)
        | none => ([], [], [])
      else (typeAndScope, [], goTrimSpace p1)
    | none => ([], [], [])
  else ([], [], l0)

/-- `parseCommitMessage` (gemini.go lines 562-639).  The `none`/empty match
arms marked unreachable mirror Go branches that cannot fire (`SplitN` with a
contained separator always yields two parts, and `strings.Split` never
yields an empty slice). -/
def parseCommitMessage (text : Str) (conventional : Bool) : CommitMessage :=
  let lines := splitChar '\n' (goTrimSpace text)
  match lines with
  | [] =>
    { ctype := [], scope := [], subject := [], body := [], footer := [],
      fullMessage := text }
  | l0 :: restLines =>
    let h := parseHeader l0 conventional
    let ty := h.1
    let sc := h.2.1
    let subj := h.2.2
    let bf : Str × Str :=
      match restLines with
      | [] => ([], [])
      | [_] => ([], [])
      | _ :: l2 :: more =>
        let p := scanBodyFooter (l2 :: more)
        (goTrimSpace (goJoin (str "\n") p.1),
         if p.2 = [] then [] else goTrimSpace (goJoin (str "\n") p.2))
    let bodyStr := bf.1
    let footStr := bf.2
    let header :=
      if ty ≠ [] then
        if sc ≠ [] then ty ++ str "(" ++ sc ++ str "): " ++ subj
        else ty ++ str ": " ++ subj
      else subj
    let fullParts :=
      [header] ++ (if bodyStr ≠ [] then [[], bodyStr] else [])
        ++ (if footStr ≠ [] then [[], footStr] else [])
    { ctype := ty, scope := sc, subject := subj, body := bodyStr,
      footer := footStr, fullMessage := goJoin (str "\n") fullParts }

/-! ### Review normalization (`parseReviewResponse`, gemini.go 669-755) -/

/-- Lookup in the `sections` string map (Go `sections[k]`, with the comma-ok
pattern modelled by `Option`). -/
def mapGet (m : List (Str × Str)) (k : Str) : Option Str :=
  (m.find? (fun p => p.1 == k)).map Prod.snd

/-- Assignment in the `sections` string map (Go `sections[k] = v`). -/
def mapSet : List (Str × Str) → Str → Str → List (Str × Str)
  | [], k, v => [(k, v)]
  | p :: ps, k, v => if p.1 == k then (k, v) :: ps else p :: mapSet ps k v

/-- Section-name rewriting applied when a `## ` heading opens a section. -/
def renameSection (s : Str) : Str :=
  if s = str "security risks" then str "security"
  else if s = str "performance issues" then str "performance"
  else s

/-- One step of the section-collecting loop of `parseReviewResponse`:
state is (sections map, current section). -/
def scanReviewLine (st : List (Str × Str) × Str) (rawLine : Str) :
    List (Str × Str) × Str :=
  let line := goTrimSpace rawLine
  if hasPref line (str "## ") then
    let sec := renameSection (goToLower (dropPref line (str "## ")))
    (mapSet st.1 sec [], sec)
  else if st.2 ≠ [] then
    (mapSet st.1 st.2 (((mapGet st.1 st.2).getD []) ++ line ++ str "\n"), st.2)
  else st

/-- Bullet test of the findings loops (`-`, `*`, `•`). -/
def isBullet (l : Str) : Bool :=
  hasPref l (str "-") || hasPref l (str "*") || hasPref l (str "•")

/-- Marker stripping of the findings loops. -/
def stripBullet (l : Str) : Str :=
  goTrimSpace (dropPref (dropPref (dropPref l (str "-")) (str "*")) (str "•"))

/-- Findings harvest from one section's collected content. -/
def bulletLines (content : Str) : List Str :=
  (splitChar '\n' content).foldr
    (fun raw acc =>
      let l := goTrimSpace raw
      if l ≠ [] && isBullet l then stripBullet l :: acc else acc) []

/-- `parseReviewResponse` (gemini.go 669-755): collect `## `-headed sections,
then harvest summary text and bullet findings per section, with the default
severity/type placeholders of the source. -/
def parseReviewResponse (text : Str) (options : ReviewOptions) : Review :=
  let st := (splitChar '\n' text).foldl scanReviewLine ([], [])
  let sections := st.1
  let summary :=
    match mapGet sections (str "summary") with
    | some c => goTrimSpace c
    | none => []
  let issues :=
    match mapGet sections (str "issues") with
    | some c => (bulletLines c).map (fun d =>
        { severity := str "medium", itype := str "general", file := [],
          line := 0, description := d, suggestion := [] : Issue })
    | none => []
  let suggestions :=
    match mapGet sections (str "suggestions") with
    | some c => (bulletLines c).map (fun d =>
        { stype := str "general", file := [], line := 0, description := d,
          exampleText := [] : Suggestion })
    | none => []
  let securityRisks :=
    match mapGet sections (str "security risks") with
    | some c => (bulletLines c).map (fun d =>
        { severity := str "medium", rtype := [], description := d,
          mitigation := [] : SecurityRisk })
    | none => []
  let performance :=
    match mapGet sections (str "performance issues") with
    | some c => (bulletLines c).map (fun d =>
        { ptype := str "general", description := d, impact := [],
          solution := [] : PerformanceIssue })
    | none => []
  { summary := summary, issues := issues, suggestions := suggestions,
    securityRisks := securityRisks, performance := performance }

/-- Review normalization as performed by both `ReviewCode` methods
(openai.go 87-99, gemini.go 439-460): the raw response text is handed
directly to `parseReviewResponse`; the review path contains no JSON decode. -/
def reviewCodeNormalize (text : Str) (options : ReviewOptions) : Review :=
  parseReviewResponse text options

/-! ### Fallback commit heuristic (`generateFallbackCommitMessage`,
commit.go 218-304) -/

/-- State of the diff-classification loop. -/
structure ScanState where
  added : List Str
  modified : List Str
  deleted : List Str
  addedLines : Nat
  deletedLines : Nat
  deriving Repr, DecidableEq

/-- Go helper `contains(slice, item)` from commit.go. -/
def sliceContains (slice : List Str) (item : Str) : Bool :=
  slice.any (fun s => s == item)

/-- One iteration of the diff-classification loop; `diff` is the whole diff
(the `new file mode` probe scans the whole diff, as in the source). -/
def scanDiffLine (diff : Str) (st : ScanState) (line : Str) : ScanState :=
  if hasPref line (str "+++") && !goContains line (str "/dev/null") then
    let filename := dropPref line (str "+++ b/")
    if !sliceContains st.added filename && !sliceContains st.modified filename then
      if goContains diff (str "new file mode") then
        { st with added := st.added ++ [filename] }
      else { st with modified := st.modified ++ [filename] }
    else st
  else if hasPref line (str "---") && goContains line (str "/dev/null") then
    let filename := dropPref line (str "--- a/")
    if !sliceContains st.deleted filename then
      { st with deleted := st.deleted ++ [filename] }
    else st
  else if hasPref line (str "+") && !hasPref line (str "+++") then
    { st with addedLines := st.addedLines + 1 }
  else if hasPref line (str "-") && !hasPref line (str "---") then
    { st with deletedLines := st.deletedLines + 1 }
  else st

/-- The whole classification loop of `generateFallbackCommitMessage`. -/
def scanDiff (diff : Str) : ScanState :=
  (splitChar '\n' diff).foldl (scanDiffLine diff) ⟨[], [], [], 0, 0⟩

/-- Commit-type inference block of `generateFallbackCommitMessage`. -/
def fallbackType (st : ScanState) (options : CommitOptions) : Str :=
  if options.ctype ≠ [] then options.ctype
  else if st.added ≠ [] then str "feat"
  else if st.deleted ≠ [] then str "chore"
  else str "fix"

/-- Subject-generation block of `generateFallbackCommitMessage`
(priority added > deleted > modified > none, pluralized by count). -/
def fallbackSubject (st : ScanState) : Str :=
  if st.added ≠ [] then
    if st.added.length = 1 then str "add " ++ filepathBase st.added.head!
    else str "add " ++ natStr st.added.length ++ str " files"
  else if st.deleted ≠ [] then
    if st.deleted.length = 1 then str "remove " ++ filepathBase st.deleted.head!
    else str "remove " ++ natStr st.deleted.length ++ str " files"
  else if st.modified ≠ [] then
    if st.modified.length = 1 then str "update " ++ filepathBase st.modified.head!
    else str "update " ++ natStr st.modified.length ++ str " files"
  else str "update code"

/-- `generateFallbackCommitMessage` (commit.go 218-304). -/
def generateFallbackCommitMessage (diff : Str) (options : CommitOptions) :
    CommitMessage :=
  let st := scanDiff diff
  let commitType := fallbackType st options
  let subject := fallbackSubject st
  let fullMessage :=
    if options.conventional then
      if options.scope ≠ [] then
        commitType ++ str "(" ++ options.scope ++ str "): " ++ subject
      else commitType ++ str ": " ++ subject
    else goTitle subject
  { ctype := commitType, scope := options.scope, subject := subject,
    body := [], footer := [], fullMessage := fullMessage }

/-- Ticket-prefix step of `runCommit` (commit.go 170-172): a non-empty
ticket number is prepended to the `Subject` field only. -/
def applyTicket (ticketNumber : Str) (m : CommitMessage) : CommitMessage :=
  if ticketNumber ≠ [] then
    { m with subject := ticketNumber ++ str "-" ++ m.subject }
  else m

/-- The message string `runCommit` passes to `git.CreateCommit`
(commit.go 198), after the ticket-prefix step. -/
def commitArgOf (ticketNumber : Str) (m : CommitMessage) : Str :=
  (applyTicket ticketNumber m).fullMessage

/-! ### Branch-name heuristic (`ExtractCommitDetails`, branch.go 27-51) -/

/-- Leftmost-window test of the date regex `\d{8}`: do eight digits start
here? -/
def digits8 (l : Str) : Bool :=
  decide (l.length ≥ 8) && (l.take 8).all Char.isDigit

/-- Fuel-indexed scan behind `removeDates` (the fuel only bounds recursion
depth; it is always at least the input length, so the zero-fuel arm is
dead). -/
def removeDatesAux : Nat → Str → Str
  | 0, s => s
  | _ + 1, [] => []
  | fuel + 1, a :: as =>
    if digits8 (a :: as) then removeDatesAux fuel (as.drop 7)
    else a :: removeDatesAux fuel as

/-- `dateRegex.ReplaceAllString(branchName, "")`: remove every leftmost
non-overlapping run of eight digits. -/
def removeDates (s : Str) : Str := removeDatesAux s.length s

/-- Leftmost-greedy match of the ticket regex `(\d{4,5})`: the first
position where at least four digits start, matching at most five. -/
def findTicket : Str → Option Str
  | [] => none
  | a :: as =>
    let run := (a :: as).takeWhile Char.isDigit
    if run.length ≥ 4 then some (run.take 5) else findTicket as

/-- `ExtractCommitDetails` (branch.go 27-51): lower-case, strip 8-digit date
runs, extract the first 4-5 digit run as ticket, classify the type from
`fix`/`feat` substrings of the date-stripped name. -/
def ExtractCommitDetails (branchName : Str) : Str × Str :=
  let bn := removeDates (goToLower branchName)
  let ticketNumber := match findTicket bn with | some t => t | none => []
  let commitType :=
    if goContains bn (str "fix") || goContains bn (str "bugfix") then str "fix"
    else if goContains bn (str "feature") || goContains bn (str "feat") then str "feat"
    else []
  (commitType, ticketNumber)

/-! ### Providers: construction and retry
(`NewOpenAIProvider` openai.go 21-39, `NewGeminiProvider` gemini.go 344-378,
`NewProvider` provider.go 211-220, `generateWithRetry` openai.go 139-171 and
gemini.go 506-539).  `Temp` is an abstract stand-in for the float64
temperature, which the program only passes through; `Client` stands for the
external Gemini client object, and `newClient` for the outcome of the
external `genai.NewClient` call as a function of the API key. -/

/-- `ai.OpenAIProvider` (the HTTP client object is external and omitted). -/
structure OpenAIProvider (Temp : Type) where
  model : Str
  temperature : Temp
  maxTokens : Int

/-- `NewOpenAIProvider`: rejects an empty API key, defaults the model to
`gpt-4o-mini`. -/
def NewOpenAIProvider {Temp : Type} (apiKey modelName : Str)
    (temperature : Temp) (maxTokens : Int) : Except Str (OpenAIProvider Temp) :=
  if apiKey = [] then Except.error (str "OpenAI API key is required")
  else Except.ok
    { model := if modelName = [] then str "gpt-4o-mini" else modelName,
      temperature := temperature, maxTokens := maxTokens }

/-- `ai.GeminiProvider` (the external client/model objects collapse to
`client`). -/
structure GeminiProvider (Temp Client : Type) where
  client : Client
  temperature : Temp
  maxTokens : Int

/-- `NewGeminiProvider`: calls the external `genai.NewClient(apiKey)` and
wraps its error; the repository code performs no key check of its own. -/
def NewGeminiProvider {Temp Client : Type} (newClient : Str → Except Str Client)
    (apiKey modelName : Str) (temperature : Temp) (maxTokens : Int) :
    Except Str (GeminiProvider Temp Client) :=
  match newClient apiKey with
  | Except.error e => Except.error (str "failed to create Gemini client: " ++ e)
  | Except.ok c =>
    Except.ok { client := c, temperature := temperature, maxTokens := maxTokens }

/-- The provider sum produced by the factory. -/
inductive ProviderV (Temp Client : Type) where
  | openai (p : OpenAIProvider Temp)
  | gemini (p : GeminiProvider Temp Client)

/-- `ai.ProviderConfig`. -/
structure PConfig (Temp : Type) where
  provider : Str
  apiKey : Str
  model : Str
  temperature : Temp
  maxTokens : Int

/-- `NewProvider` (provider.go 211-220): factory keyed by provider name. -/
def NewProvider {Temp Client : Type} (newClient : Str → Except Str Client)
    (config : PConfig Temp) : Except Str (ProviderV Temp Client) :=
  if config.provider = str "openai" then
    (NewOpenAIProvider config.apiKey config.model config.temperature
      config.maxTokens).map ProviderV.openai
  else if config.provider = str "gemini" then
    (NewGeminiProvider newClient config.apiKey config.model config.temperature
      config.maxTokens).map ProviderV.gemini
  else
    Except.error (str "unsupported AI provider: " ++ config.provider ++
      str ". Supported providers: openai, gemini")

/-- Error shape of the OpenAI call: a typed `*openai.APIError` (with its
HTTP status) or any other error. -/
inductive OAIError where
  | apiError (httpStatusCode : Int) (msg : Str)
  | otherError (msg : Str)

/-- Outcome of one `CreateChatCompletion` call: the choices' contents, or an
error. -/
inductive OAIResult where
  | success (choices : List Str)
  | failure (e : OAIError)

/-- `OpenAIProvider.generateWithRetry` (openai.go 139-171), instrumented
with the number of API calls made.  Despite its name and doc comment, the
function performs a single call: a 429 `APIError` yields the quota hint
immediately, every other error is wrapped, and an empty choice list is
`no response from OpenAI`. -/
def openaiGenerateWithRetry (calls : Nat → OAIResult) : Except Str Str × Nat :=
  match calls 0 with
  | OAIResult.failure (OAIError.apiError status msg) =>
    if status = 429 then
      (Except.error (str "rate limit exceeded. Please check your OpenAI API quota and billing at https://platform.openai.com/usage"), 1)
    else (Except.error (str "OpenAI API error: " ++ msg), 1)
  | OAIResult.failure (OAIError.otherError msg) =>
    (Except.error (str "OpenAI API error: " ++ msg), 1)
  | OAIResult.success [] => (Except.error (str "no response from OpenAI"), 1)
  | OAIResult.success (c :: _) => (Except.ok c, 1)

/-- Rate-limit detection of `GeminiProvider.generateWithRetry`
(`strings.Contains(err.Error(), "429") || strings.Contains(err.Error(), "quota")`). -/
def isGeminiRateLimit (msg : Str) : Bool :=
  goContains msg (str "429") || goContains msg (str "quota")

/-- The retry loop of `GeminiProvider.generateWithRetry` (gemini.go 506-539),
instrumented with the number of calls made and the backoff delays slept (in
seconds, `2^attempt` each).  Context cancellation is not modelled (no
deadline fires). -/
def geminiRetryLoop {α : Type} (calls : Nat → Except Str α) (maxRetries : Nat) :
    Nat → Nat → List Nat → Except Str α × Nat × List Nat
  | 0, attempt, delays =>
    (Except.error (str "failed after " ++ natStr (maxRetries + 1) ++ str " retries"),
      attempt, delays)
  | fuel + 1, attempt, delays =>
    match calls attempt with
    | Except.error m =>
      if isGeminiRateLimit m then
        if attempt = maxRetries then
          (Except.error (str "rate limit exceeded after " ++ natStr (maxRetries + 1) ++
            str " attempts. Please try again later or check your Gemini API quota at https://ai.google.dev/gemini-api/docs/rate-limits"),
            attempt + 1, delays)
        else geminiRetryLoop calls maxRetries fuel (attempt + 1) (delays ++ [2 ^ attempt])
      else (Except.error m, attempt + 1, delays)
    | Except.ok r => (Except.ok r, attempt + 1, delays)

/-- `GeminiProvider.generateWithRetry`: `maxRetries = 3`, starting at
attempt 0 with no delays slept.  The fuel `maxRetries + 1` counts the loop
iterations `attempt = 0..maxRetries`; the zero-fuel arm is the (dead)
fall-through after the Go `for` loop. -/
def geminiGenerateWithRetry {α : Type} (calls : Nat → Except Str α) :
    Except Str α × Nat × List Nat :=
  geminiRetryLoop calls 3 4 0 []

/-! ### Helper lemmas for the claims -/

/-- The zero-value `Review` (all fields empty), as initialized by
`parseReviewResponse` before any section is filled. -/
def emptyReview : Review :=
  { summary := [], issues := [], suggestions := [], securityRisks := [],
    performance := [] }

/-- A concrete `ReviewOptions` value with both focus flags on. -/
def reviewOpts0 : ReviewOptions :=
  { focusAreas := [], verbose := false, security := true, performance := true }

/-- Keys that the section map can never hold: the renaming step rewrites
exactly these two away. -/
def goodKey (k : Str) : Prop :=
  k ≠ str "security risks" ∧ k ≠ str "performance issues"

theorem renameSection_goodKey (s : Str) : goodKey (renameSection s) := by
  unfold renameSection goodKey
  split_ifs with h1 h2
  · exact ⟨by decide, by decide⟩
  · exact ⟨by decide, by decide⟩
  · exact ⟨h1, h2⟩

theorem mapSet_good {m : List (Str × Str)} {k v : Str}
    (hm : ∀ p ∈ m, goodKey p.1) (hk : goodKey k) :
    ∀ p ∈ mapSet m k v, goodKey p.1 := by
  induction m with
  | nil =>
    intro p hp
    simp only [mapSet, List.mem_singleton] at hp
    rw [hp]
    exact hk
  | cons q qs ih =>
    intro p hp
    simp only [mapSet] at hp
    by_cases hq : (q.1 == k) = true
    · rw [if_pos hq] at hp
      rcases List.mem_cons.mp hp with rfl | hmem
      · exact hk
      · exact hm p (List.mem_cons_of_mem _ hmem)
    · rw [if_neg hq] at hp
      rcases List.mem_cons.mp hp with rfl | hmem
      · exact hm p (List.mem_cons_self _ _)
      · exact ih (fun r hr => hm r (List.mem_cons_of_mem _ hr)) p hmem

theorem mapGet_none {m : List (Str × Str)} {k : Str}
    (h : ∀ p ∈ m, p.1 ≠ k) : mapGet m k = none := by
  unfold mapGet
  rw [List.find?_eq_none.mpr]
  · rfl
  · intro p hp
    simpa using h p hp

theorem scanReviewLine_invariant (st : List (Str × Str) × Str) (l : Str)
    (h1 : ∀ p ∈ st.1, goodKey p.1) (h2 : st.2 = [] ∨ goodKey st.2) :
    (∀ p ∈ (scanReviewLine st l).1, goodKey p.1) ∧
    ((scanReviewLine st l).2 = [] ∨ goodKey (scanReviewLine st l).2) := by
  simp only [scanReviewLine]
  split_ifs with hh hcur
  · exact ⟨mapSet_good h1 (renameSection_goodKey _),
      Or.inr (renameSection_goodKey _)⟩
  · exact ⟨mapSet_good h1 (h2.resolve_left hcur), h2⟩
  · exact ⟨h1, h2⟩

theorem scanReview_fold_invariant (lines : List Str) :
    ∀ st : List (Str × Str) × Str,
    (∀ p ∈ st.1, goodKey p.1) → (st.2 = [] ∨ goodKey st.2) →
    (∀ p ∈ (lines.foldl scanReviewLine st).1, goodKey p.1) ∧
    ((lines.foldl scanReviewLine st).2 = [] ∨
      goodKey (lines.foldl scanReviewLine st).2) := by
  induction lines with
  | nil => exact fun st hf hs => ⟨hf, hs⟩
  | cons l ls ih =>
    intro st hf hs
    simp only [List.foldl_cons]
    have step := scanReviewLine_invariant st l hf hs
    exact ih _ step.1 step.2

theorem parseReview_security_performance_empty (text : Str)
    (options : ReviewOptions) :
    (parseReviewResponse text options).securityRisks = [] ∧
    (parseReviewResponse text options).performance = [] := by
  have hinv := scanReview_fold_invariant (splitChar '\n' text) ([], [])
    (by simp) (Or.inl rfl)
  unfold parseReviewResponse
  constructor
  · simp only
    rw [mapGet_none (fun p hp => (hinv.1 p hp).1)]
  · simp only
    rw [mapGet_none (fun p hp => (hinv.1 p hp).2)]

/-! ### Claim theorems -/

/-- Claim C1 (code bug): the source renames the `Security Risks` and
`Performance Issues` section keys to `security`/`performance` when opening
them, but harvests bullets under the old keys `security risks`/`performance
issues`, which therefore never exist in the map: the `securityRisks` and
`performance` lists of the text-fallback review parser are empty for every
input, so a bullet under `## Security Risks` is dropped (first conjunct
evaluates the failing input). -/
theorem C1_security_performance_sections_dropped :
    reviewCodeNormalize (str "## Security Risks\n- SQL injection in query builder\n## Performance Issues\n- unbounded loop in hot path") reviewOpts0 = emptyReview ∧
    ∀ (text : Str) (options : ReviewOptions),
      (parseReviewResponse text options).securityRisks = [] ∧
      (parseReviewResponse text options).performance = [] :=
  ⟨by decide, fun text options => parseReview_security_performance_empty text options⟩

/-- Claim C2 counterexample: a provider call can succeed with an empty
response text (one choice whose content is empty), and `parseCommitMessage`
turns the empty text into a `CommitMessage` whose `FullMessage` is empty —
so success does not guarantee a non-empty `FullMessage` on the provider
path. -/
theorem C2_counterexample_empty_success :
    (openaiGenerateWithRetry (fun _ => OAIResult.success [str ""])).1 =
      Except.ok (str "") ∧
    (parseCommitMessage (str "") true).fullMessage = str "" :=
  ⟨rfl, by decide⟩

theorem goTitleAux_length (s : Str) : ∀ prev, (goTitleAux prev s).length = s.length := by
  induction s with
  | nil => intro prev; rfl
  | cons c cs ih => intro prev; simp [goTitleAux, ih]

theorem goTitle_ne_nil {s : Str} (h : s ≠ []) : goTitle s ≠ [] := by
  intro hc
  apply h
  have hl := goTitleAux_length s true
  unfold goTitle at hc
  rw [hc] at hl
  exact List.length_eq_zero.mp (by simpa using hl.symm)

theorem fallbackSubject_ne_nil (st : ScanState) : fallbackSubject st ≠ [] := by
  unfold fallbackSubject
  split_ifs <;> simp +decide [List.append_eq_nil]

/-- Claim C2 (amended): the fallback heuristic always produces a non-empty
`FullMessage`, and its subject is `update code` exactly when the diff scan
extracts no file names. -/
theorem C2_fallback_nonempty_update_code :
    (∀ (diff : Str) (options : CommitOptions),
      (generateFallbackCommitMessage diff options).fullMessage ≠ []) ∧
    (∀ (diff : Str) (options : CommitOptions),
      (scanDiff diff).added = [] → (scanDiff diff).modified = [] →
      (scanDiff diff).deleted = [] →
      (generateFallbackCommitMessage diff options).subject = str "update code") := by
  constructor
  · intro diff options
    show (if options.conventional then _ else goTitle (fallbackSubject (scanDiff diff))) ≠ []
    split_ifs with hconv hscope
    · simp +decide [List.append_eq_nil]
    · simp +decide [List.append_eq_nil]
    · exact goTitle_ne_nil (fallbackSubject_ne_nil _)
  · intro diff options ha hm hd
    show fallbackSubject (scanDiff diff) = str "update code"
    unfold fallbackSubject
    simp [ha, hm, hd]

/-- Claim C2 witness: on the empty diff nothing is extracted and the
fallback subject is `update code`. -/
theorem C2_witness :
    (scanDiff (str "")).added = [] ∧ (scanDiff (str "")).modified = [] ∧
    (scanDiff (str "")).deleted = [] ∧
    (generateFallbackCommitMessage (str "") ⟨[], [], true⟩).subject = str "update code" :=
  ⟨by decide, by decide, by decide,
    C2_fallback_nonempty_update_code.2 (str "") ⟨[], [], true⟩
      (by decide) (by decide) (by decide)⟩

/-- Claim C9: `parseCommitMessage` never reads the second line — for two
inputs whose trimmed line lists agree except at index 1 (with at least
three lines), the parses coincide, so line 1 contributes to none of the
output fields. -/
theorem C9_second_line_ignored (t1 t2 : Str) (conventional : Bool)
    (l0 a b : Str) (rest : List Str)
    (h1 : splitChar '\n' (goTrimSpace t1) = l0 :: a :: rest)
    (h2 : splitChar '\n' (goTrimSpace t2) = l0 :: b :: rest)
    (hrest : rest ≠ []) :
    parseCommitMessage t1 conventional = parseCommitMessage t2 conventional := by
  rcases rest with _ | ⟨r1, more⟩
  · exact absurd rfl hrest
  · unfold parseCommitMessage
    rw [h1, h2]

/-- Claim C9 witness: concrete three-line inputs differing only in the
second (non-blank) line parse identically. -/
theorem C9_witness :
    splitChar '\n' (goTrimSpace (str "a\nb\nc")) = str "a" :: str "b" :: [str "c"] ∧
    splitChar '\n' (goTrimSpace (str "a\nB\nc")) = str "a" :: str "B" :: [str "c"] ∧
    ([str "c"] : List Str) ≠ [] ∧
    parseCommitMessage (str "a\nb\nc") true = parseCommitMessage (str "a\nB\nc") true :=
  ⟨by decide, by decide, by decide,
    C9_second_line_ignored _ _ true (str "a") (str "b") (str "B") [str "c"]
      (by decide) (by decide) (by decide)⟩

/-- Claim C10: a non-empty ticket number is prepended to `Subject` only;
every other field — in particular `FullMessage` — is unchanged, and the
string handed to `git.CreateCommit` is exactly the unprefixed
`FullMessage`. -/
theorem C10_ticket_only_subject (ticketNumber : Str) (m : CommitMessage)
    (h : ticketNumber ≠ []) :
    (applyTicket ticketNumber m).subject = ticketNumber ++ str "-" ++ m.subject ∧
    (applyTicket ticketNumber m).ctype = m.ctype ∧
    (applyTicket ticketNumber m).scope = m.scope ∧
    (applyTicket ticketNumber m).body = m.body ∧
    (applyTicket ticketNumber m).footer = m.footer ∧
    (applyTicket ticketNumber m).fullMessage = m.fullMessage ∧
    commitArgOf ticketNumber m = m.fullMessage := by
  unfold applyTicket commitArgOf
  simp [h, applyTicket]

/-- Claim C10 witness at a concrete ticket and message. -/
theorem C10_witness :
    (str "1234" : Str) ≠ [] ∧
    (applyTicket (str "1234")
      ⟨str "feat", [], str "add endpoint", [], [], str "feat: add endpoint"⟩).subject =
        str "1234" ++ str "-" ++ str "add endpoint" ∧
    commitArgOf (str "1234")
      ⟨str "feat", [], str "add endpoint", [], [], str "feat: add endpoint"⟩ =
        str "feat: add endpoint" :=
  ⟨by decide,
    (C10_ticket_only_subject (str "1234") _ (by decide)).1,
    (C10_ticket_only_subject (str "1234")
      ⟨str "feat", [], str "add endpoint", [], [], str "feat: add endpoint"⟩
      (by decide)).2.2.2.2.2.2⟩

theorem hasPref_append_of {pre a : Str} (h : pre <+: a) (b : Str) :
    hasPref (a ++ b) pre = true :=
  hasPref_iff.mpr (h.trans (List.prefix_append a b))

theorem scanDiffLine_no_add_del {diff : Str}
    (h1 : goContains diff (str "new file mode") = false)
    {line : Str} (hline : goContains line (str "/dev/null") = false)
    {st : ScanState} (ha : st.added = []) (hd : st.deleted = []) :
    (scanDiffLine diff st line).added = [] ∧
    (scanDiffLine diff st line).deleted = [] := by
  simp only [scanDiffLine, hline, h1, Bool.not_false, Bool.and_true,
    Bool.and_false, if_false]
  split_ifs <;> simp_all

theorem scanDiff_fold_no_add_del {diff : Str}
    (h1 : goContains diff (str "new file mode") = false) :
    ∀ (lines : List Str) (st : ScanState),
    (∀ l ∈ lines, goContains l (str "/dev/null") = false) →
    st.added = [] → st.deleted = [] →
    (lines.foldl (scanDiffLine diff) st).added = [] ∧
    (lines.foldl (scanDiffLine diff) st).deleted = [] := by
  intro lines
  induction lines with
  | nil => exact fun st _ ha hd => ⟨ha, hd⟩
  | cons l ls ih =>
    intro st hl ha hd
    simp only [List.foldl_cons]
    have step := scanDiffLine_no_add_del h1
      (hl l (List.mem_cons_self _ _)) ha hd
    exact ih _ (fun x hx => hl x (List.mem_cons_of_mem _ hx)) step.1 step.2

/-- Claim C7: a diff with no `new file mode` marker and no `/dev/null`
target classifies every file as modified — the added and deleted lists stay
empty — and the fallback subject is always of the `update ...` form. -/
theorem C7_no_newfile_no_devnull_update (diff : Str) (options : CommitOptions)
    (h1 : goContains diff (str "new file mode") = false)
    (h2 : goContains diff (str "/dev/null") = false) :
    (scanDiff diff).added = [] ∧ (scanDiff diff).deleted = [] ∧
    hasPref (generateFallbackCommitMessage diff options).subject (str "update") = true := by
  have hlines : ∀ l ∈ splitChar '\n' diff, goContains l (str "/dev/null") = false :=
    fun l hl => not_goContains_mono (infix_of_mem_splitChar hl) h2
  have had : (scanDiff diff).added = [] ∧ (scanDiff diff).deleted = [] :=
    scanDiff_fold_no_add_del h1 (splitChar '\n' diff)
      ⟨[], [], [], 0, 0⟩ hlines rfl rfl
  refine ⟨had.1, had.2, ?_⟩
  show hasPref (fallbackSubject (scanDiff diff)) (str "update") = true
  unfold fallbackSubject
  have hupd : str "update" <+: str "update " := hasPref_iff.mp (by decide)
  simp only [had.1, had.2, ne_eq, not_true_eq_false, if_false,
    not_false_eq_true, if_true]
  split_ifs <;>
    first
      | decide
      | exact hasPref_append_of hupd (filepathBase (scanDiff diff).modified.head!)
      | exact hasPref_append_of hupd
          (natStr (scanDiff diff).modified.length ++ str " files")

/-- Claim C7 witness: a one-file modification diff. -/
theorem C7_witness :
    goContains (str "+++ b/foo.go\n+bar") (str "new file mode") = false ∧
    goContains (str "+++ b/foo.go\n+bar") (str "/dev/null") = false ∧
    ((scanDiff (str "+++ b/foo.go\n+bar")).added = [] ∧
      (scanDiff (str "+++ b/foo.go\n+bar")).deleted = [] ∧
      hasPref (generateFallbackCommitMessage (str "+++ b/foo.go\n+bar")
        ⟨[], [], true⟩).subject (str "update") = true) :=
  ⟨by decide, by decide,
    C7_no_newfile_no_devnull_update (str "+++ b/foo.go\n+bar") ⟨[], [], true⟩
      (by decide) (by decide)⟩

/-- Claim C3 (code bug): the Gemini backend implements the retry policy —
under persistent rate-limit errors it makes 4 calls (1 + 3 retries) with
backoff delays 1, 2 and 4 seconds before the remediation-hint error, and a
non-rate-limit error propagates after a single call — but the OpenAI
backend, whose `generateWithRetry` doc comment promises the same backoff
logic, performs exactly one call even under a persistent HTTP 429 and
returns the quota hint immediately. -/
theorem C3_gemini_retries_openai_does_not :
    geminiGenerateWithRetry (α := Unit)
      (fun _ => Except.error (str "googleapi: Error 429: quota exceeded")) =
      (Except.error (str "rate limit exceeded after 4 attempts. Please try again later or check your Gemini API quota at https://ai.google.dev/gemini-api/docs/rate-limits"),
        4, [1, 2, 4]) ∧
    geminiGenerateWithRetry (α := Unit)
      (fun _ => Except.error (str "network unreachable")) =
      (Except.error (str "network unreachable"), 1, []) ∧
    geminiGenerateWithRetry (α := Unit) (fun n =>
      if n < 2 then Except.error (str "googleapi: Error 429: quota exceeded")
      else Except.ok ()) =
      (Except.ok (), 3, [1, 2]) ∧
    openaiGenerateWithRetry (fun _ =>
      OAIResult.failure (OAIError.apiError 429 (str "Too Many Requests"))) =
      (Except.error (str "rate limit exceeded. Please check your OpenAI API quota and billing at https://platform.openai.com/usage"), 1) :=
  ⟨rfl, rfl, rfl, rfl⟩

/-- Claim C4 counterexample: with an external client creation that accepts
the call, the Gemini constructor succeeds on an empty API key — the
repository's own code performs no key check for the Gemini backend, so the
claimed configuration error is not guaranteed by this code base. -/
theorem C4_counterexample_gemini_empty_key :
    @NewProvider Unit Unit (fun _ => Except.ok ())
      { provider := str "gemini", apiKey := str "",
        model := str "gemini-2.0-flash", temperature := (), maxTokens := 1000 } =
      Except.ok (ProviderV.gemini
        { client := (), temperature := (), maxTokens := 1000 }) := rfl

/-- Claim C4 (amended): the OpenAI constructor rejects an empty key with a
configuration error and the factory rejects every unknown provider name,
while the Gemini constructor succeeds exactly when the external client
creation succeeds (it adds no key check of its own). -/
theorem C4_key_and_factory_checks :
    (∀ (Temp : Type) (modelName : Str) (temperature : Temp) (maxTokens : Int),
      NewOpenAIProvider (str "") modelName temperature maxTokens =
        Except.error (str "OpenAI API key is required")) ∧
    (∀ (Temp Client : Type) (newClient : Str → Except Str Client)
       (cfg : PConfig Temp),
      cfg.provider ≠ str "openai" → cfg.provider ≠ str "gemini" →
      NewProvider newClient cfg =
        Except.error (str "unsupported AI provider: " ++ cfg.provider ++
          str ". Supported providers: openai, gemini")) ∧
    (∀ (Temp Client : Type) (newClient : Str → Except Str Client)
       (apiKey modelName : Str) (temperature : Temp) (maxTokens : Int),
      (NewGeminiProvider newClient apiKey modelName temperature
        maxTokens).isOk = (newClient apiKey).isOk) := by
  refine ⟨fun Temp mn t mt => rfl, ?_, ?_⟩
  · intro Temp Client nc cfg h1 h2
    unfold NewProvider
    rw [if_neg h1, if_neg h2]
  · intro Temp Client nc key mn t mt
    unfold NewGeminiProvider
    rcases nc key with e | c <;> rfl

/-- Claim C4 witness: the factory rejects the unknown provider name
`anthropic`. -/
theorem C4_witness :
    (str "anthropic" : Str) ≠ str "openai" ∧
    (str "anthropic" : Str) ≠ str "gemini" ∧
    @NewProvider Unit Unit (fun _ => Except.ok ())
      { provider := str "anthropic", apiKey := str "k", model := [],
        temperature := (), maxTokens := 0 } =
      Except.error (str "unsupported AI provider: " ++ str "anthropic" ++
        str ". Supported providers: openai, gemini") :=
  ⟨by decide, by decide,
    C4_key_and_factory_checks.2.1 Unit Unit (fun _ => Except.ok ())
      { provider := str "anthropic", apiKey := str "k", model := [],
        temperature := (), maxTokens := 0 } (by decide) (by decide)⟩

theorem goJoin_single (sep x : Str) : goJoin sep [x] = x := by
  simp [goJoin, List.intercalate]

theorem goTrimSpace_space_cons {subj : Str} (hsj : goTrimSpace subj = subj) :
    goTrimSpace (' ' :: subj) = subj := by
  have h1 : trimLeft (' ' :: subj) = trimLeft subj := by
    simp [trimLeft, List.dropWhile_cons, show goIsSpace ' ' = true from rfl]
  unfold goTrimSpace at hsj ⊢
  rw [h1]
  exact hsj

theorem parseHeader_conventional (ty sc subj : Str)
    (hty : goTrimSpace ty = ty) (htyne : ty ≠ [])
    (htyc : ':' ∉ ty) (htyp : '(' ∉ ty)
    (hsc : goTrimSpace sc = sc) (hscne : sc ≠ []) (hscc : ':' ∉ sc)
    (hsj : goTrimSpace subj = subj) :
    parseHeader (ty ++ str "(" ++ sc ++ str "): " ++ subj) true =
      (ty, sc, subj) := by
  have e1 : str "(" = ['('] := rfl
  have e2 : str "): " = [')', ':', ' '] := rfl
  obtain ⟨a, ty', rfl⟩ : ∃ a t, ty = a :: t := by
    rcases ty with _ | ⟨a, t⟩
    · exact absurd rfl htyne
    · exact ⟨a, t, rfl⟩
  obtain ⟨s0, sc', rfl⟩ : ∃ a t, sc = a :: t := by
    rcases sc with _ | ⟨a, t⟩
    · exact absurd rfl hscne
    · exact ⟨a, t, rfl⟩
  have ha : goIsSpace a = false := trim_head_not_space hty rfl
  have hs0 : goIsSpace s0 = false := trim_head_not_space hsc rfl
  set ty : Str := a :: ty' with hty_def
  set sc : Str := s0 :: sc' with hsc_def
  set line : Str := ty ++ str "(" ++ sc ++ str "): " ++ subj with hline_def
  have hcolon : goContains line (str ":") = true := by
    rw [show str ":" = [':'] from rfl]
    refine goContains_singleton ?_
    rw [hline_def, e1, e2]
    simp
  have hshape1 : line = (ty ++ '(' :: (sc ++ [')'])) ++ ':' :: (' ' :: subj) := by
    rw [hline_def, e1, e2]
    simp
  have hnc : ':' ∉ ty ++ '(' :: (sc ++ [')']) := by
    simp only [List.mem_append, List.mem_cons, List.mem_singleton, not_or]
    exact ⟨htyc, by decide, hscc, by decide⟩
  have hfind1 : splitFirst ':' line = some (ty ++ '(' :: (sc ++ [')']), ' ' :: subj) := by
    rw [hshape1]
    exact splitFirst_append_cons hnc _
  have htrim0 : goTrimSpace (ty ++ '(' :: (sc ++ [')'])) = ty ++ '(' :: (sc ++ [')']) := by
    have hsh : ty ++ '(' :: (sc ++ [')']) = a :: (ty' ++ '(' :: sc) ++ [')'] := by
      rw [hty_def, hsc_def]
      simp
    rw [hsh]
    exact goTrimSpace_eq_self_of_ends ha (by decide)
  have hpar1 : goContains (ty ++ '(' :: (sc ++ [')'])) (str "(") = true := by
    rw [show str "(" = ['('] from rfl]
    exact goContains_singleton (by simp)
  have hpar2 : goContains (ty ++ '(' :: (sc ++ [')'])) (str ")") = true := by
    rw [show str ")" = [')'] from rfl]
    exact goContains_singleton (by simp)
  have hfind2 : splitFirst '(' (ty ++ '(' :: (sc ++ [')'])) = some (ty, sc ++ [')']) :=
    splitFirst_append_cons htyp _
  have htrimsc : goTrimSpace (sc ++ [')']) = sc ++ [')'] := by
    have hsh : sc ++ [')'] = s0 :: sc' ++ [')'] := by rw [hsc_def]
    rw [hsh]
    exact goTrimSpace_eq_self_of_ends hs0 (by decide)
  have hdrop : dropSuf (sc ++ [')']) (str ")") = sc := by
    unfold dropSuf
    rw [show str ")" = [')'] from rfl,
      if_pos (List.isSuffixOf_iff_suffix.mpr ⟨sc, rfl⟩)]
    simp only [List.length_append, List.length_singleton, Nat.add_sub_cancel]
    exact List.take_left sc [')']
  unfold parseHeader
  rw [hcolon, hfind1]
  simp only [Bool.and_self, if_true]
  rw [htrim0, hpar1, hpar2]
  simp only [Bool.and_self, if_true]
  rw [hfind2]
  simp only
  rw [hty, htrimsc, hdrop, goTrimSpace_space_cons hsj]

/-- Claim C5: parsing a clean conventional header line
`type(scope): subject` (components trimmed and newline-free, the type
colon- and paren-free, the scope colon-free, all non-empty) in conventional
mode and reassembling `FullMessage` reproduces the original line exactly;
the decomposition recovers the three components. -/
theorem C5_conventional_roundtrip (ty sc subj : Str)
    (hty : goTrimSpace ty = ty) (htyne : ty ≠ [])
    (htyc : ':' ∉ ty) (htyp : '(' ∉ ty) (htyn : '\n' ∉ ty)
    (hsc : goTrimSpace sc = sc) (hscne : sc ≠ [])
    (hscc : ':' ∉ sc) (hscn : '\n' ∉ sc)
    (hsj : goTrimSpace subj = subj) (hsjne : subj ≠ [])
    (hsjn : '\n' ∉ subj) :
    parseCommitMessage (ty ++ str "(" ++ sc ++ str "): " ++ subj) true =
      { ctype := ty, scope := sc, subject := subj, body := [], footer := [],
        fullMessage := ty ++ str "(" ++ sc ++ str "): " ++ subj } := by
  have e1 : str "(" = ['('] := rfl
  have e2 : str "): " = [')', ':', ' '] := rfl
  obtain ⟨a, ty', rfl⟩ : ∃ a t, ty = a :: t := by
    rcases ty with _ | ⟨a, t⟩
    · exact absurd rfl htyne
    · exact ⟨a, t, rfl⟩
  obtain ⟨u, bch, hsubj⟩ : ∃ L b, subj = L ++ [b] := by
    rcases List.eq_nil_or_concat subj with h | ⟨L, b, h⟩
    · exact absurd h hsjne
    · exact ⟨L, b, by simpa [List.concat_eq_append] using h⟩
  have ha : goIsSpace a = false := trim_head_not_space hty rfl
  have hb : goIsSpace bch = false := trim_last_not_space hsj hsubj
  set ty : Str := a :: ty' with hty_def
  set line : Str := ty ++ str "(" ++ sc ++ str "): " ++ subj with hline_def
  have hnl : '\n' ∉ line := by
    rw [hline_def, e1, e2]
    intro hmem
    simp only [List.mem_append] at hmem
    rcases hmem with ((((h | h) | h) | h) | h)
    · exact htyn h
    · exact absurd h (by decide)
    · exact hscn h
    · exact absurd h (by decide)
    · exact hsjn h
  have htrim : goTrimSpace line = line := by
    have hsh : line = a :: (ty' ++ str "(" ++ sc ++ str "): " ++ u) ++ [bch] := by
      rw [hline_def, hty_def, hsubj]
      simp
    rw [hsh]
    exact goTrimSpace_eq_self_of_ends ha hb
  have hhead := parseHeader_conventional ty sc subj hty htyne htyc htyp
    hsc hscne hscc hsj
  unfold parseCommitMessage
  rw [htrim, splitChar_of_not_mem hnl]
  simp only
  rw [hhead]
  simp [htyne, hscne, goJoin_single, hty_def, hline_def]

/-- Claim C5 witness: the concrete header `feat(api): add endpoint`
round-trips. -/
theorem C5_witness :
    goTrimSpace (str "feat") = str "feat" ∧ (str "feat" : Str) ≠ [] ∧
    goTrimSpace (str "api") = str "api" ∧ (str "api" : Str) ≠ [] ∧
    goTrimSpace (str "add endpoint") = str "add endpoint" ∧
    (str "add endpoint" : Str) ≠ [] ∧
    parseCommitMessage (str "feat" ++ str "(" ++ str "api" ++ str "): " ++
        str "add endpoint") true =
      { ctype := str "feat", scope := str "api", subject := str "add endpoint",
        body := [], footer := [],
        fullMessage := str "feat" ++ str "(" ++ str "api" ++ str "): " ++
          str "add endpoint" } :=
  ⟨by decide, by decide, by decide, by decide, by decide, by decide,
    C5_conventional_roundtrip (str "feat") (str "api") (str "add endpoint")
      (by decide) (by decide) (by decide) (by decide) (by decide)
      (by decide) (by decide) (by decide) (by decide)
      (by decide) (by decide) (by decide)⟩

/-! ### Lemmas for the branch-name heuristic -/

theorem removeDatesAux_nil (f : Nat) : removeDatesAux f [] = [] := by
  cases f <;> rfl

theorem removeDatesAux_congr :
    ∀ (f1 : Nat) (f2 : Nat) (s : Str), s.length ≤ f1 → s.length ≤ f2 →
    removeDatesAux f1 s = removeDatesAux f2 s := by
  intro f1
  induction f1 with
  | zero =>
    intro f2 s h1 _
    have : s = [] := List.length_eq_zero.mp (Nat.le_zero.mp h1)
    rw [this, removeDatesAux_nil, removeDatesAux_nil]
  | succ n ih =>
    intro f2 s h1 h2
    rcases s with _ | ⟨a, as⟩
    · rw [removeDatesAux_nil, removeDatesAux_nil]
    · rcases f2 with _ | g
      · simp at h2
      · simp only [removeDatesAux]
        by_cases hd : digits8 (a :: as) = true
        · rw [if_pos hd, if_pos hd]
          refine ih g (as.drop 7) ?_ ?_ <;>
            (simp only [List.length_drop]
             simp only [List.length_cons] at h1 h2
             omega)
        · rw [if_neg hd, if_neg hd]
          refine congrArg (a :: ·) (ih g as ?_ ?_) <;>
            (simp only [List.length_cons] at h1 h2
             omega)

theorem removeDates_cons (a : Char) (as : Str) :
    removeDates (a :: as) =
      if digits8 (a :: as) then removeDates (as.drop 7)
      else a :: removeDates as := by
  show removeDatesAux (a :: as).length (a :: as) = _
  simp only [List.length_cons, removeDatesAux]
  by_cases hd : digits8 (a :: as) = true
  · rw [if_pos hd, if_pos hd]
    exact removeDatesAux_congr as.length (as.drop 7).length (as.drop 7)
      (by simp only [List.length_drop]; omega) (Nat.le_refl _)
  · rw [if_neg hd, if_neg hd]
    exact congrArg (a :: ·)
      (removeDatesAux_congr as.length as.length as (Nat.le_refl _) (Nat.le_refl _))

theorem removeDates_short : ∀ {s : Str}, s.length < 8 → removeDates s = s := by
  intro s
  induction s with
  | nil => intro _; rfl
  | cons a as ih =>
    intro h
    have hd : digits8 (a :: as) = false := by
      simp only [digits8, Bool.and_eq_false_iff, decide_eq_false_iff_not]
      left
      omega
    rw [removeDates_cons, if_neg (by simp [hd])]
    simp only [List.length_cons] at h
    rw [ih (by omega)]

theorem digits8_append_long {xs : Str} (h : 8 ≤ xs.length) (zs : Str) :
    digits8 (xs ++ zs) = digits8 xs := by
  unfold digits8
  rw [List.take_append_of_le_length h,
    decide_eq_true (show (xs ++ zs).length ≥ 8 by
      simp only [List.length_append]; omega),
    decide_eq_true (show xs.length ≥ 8 from h)]

theorem digits8_short_nondigit {xs : Str} {c : Char} {ys : Str}
    (hx : xs.length < 8) (hc : c.isDigit = false) :
    digits8 (xs ++ c :: ys) = false := by
  unfold digits8
  rcases Nat.lt_or_ge (xs ++ c :: ys).length 8 with h | h
  · simp only [Bool.and_eq_false_iff, decide_eq_false_iff_not]
    left
    omega
  · rw [List.take_append_eq_append_take]
    have h8 : 1 ≤ 8 - xs.length := by omega
    have : List.take (8 - xs.length) (c :: ys) =
        c :: List.take (8 - xs.length - 1) ys := by
      rcases e : 8 - xs.length with _ | k
      · omega
      · simp [List.take_succ_cons]
    rw [this]
    simp [List.all_append, hc]

theorem removeDates_split {c : Char} (hc : c.isDigit = false) :
    ∀ (xs ys : Str),
    removeDates (xs ++ c :: ys) = removeDates xs ++ c :: removeDates ys := by
  have base : ∀ ys, removeDates (c :: ys) = c :: removeDates ys := by
    intro ys
    have h0 : digits8 (c :: ys) = false := by
      have := @digits8_short_nondigit ([] : Str) c ys (by decide) hc
      simpa using this
    rw [removeDates_cons, if_neg (by simp [h0])]
  have main : ∀ (n : Nat) (xs ys : Str), xs.length ≤ n →
      removeDates (xs ++ c :: ys) = removeDates xs ++ c :: removeDates ys := by
    intro n
    induction n with
    | zero =>
      intro xs ys h
      have : xs = [] := List.length_eq_zero.mp (Nat.le_zero.mp h)
      subst this
      simpa using base ys
    | succ n ih =>
      intro xs ys h
      rcases xs with _ | ⟨a, xs'⟩
      · simpa using base ys
      · rw [show (a :: xs') ++ c :: ys = a :: (xs' ++ c :: ys) from rfl,
          removeDates_cons]
        by_cases hd : digits8 (a :: (xs' ++ c :: ys)) = true
        · have hlong : 8 ≤ (a :: xs').length := by
            by_contra hshort
            push_neg at hshort
            have := @digits8_short_nondigit (a :: xs') c ys hshort hc
            rw [show (a :: xs') ++ c :: ys = a :: (xs' ++ c :: ys) from rfl] at this
            rw [this] at hd
            exact Bool.false_ne_true hd
          have hd' : digits8 (a :: xs') = true := by
            have := digits8_append_long hlong (c :: ys)
            rw [show (a :: xs') ++ c :: ys = a :: (xs' ++ c :: ys) from rfl] at this
            rw [← this]
            exact hd
          rw [if_pos hd]
          have h7 : 7 ≤ xs'.length := by
            simp only [List.length_cons] at hlong
            omega
          have hlen : (xs'.drop 7).length ≤ n := by
            simp only [List.length_drop]
            simp only [List.length_cons] at h
            omega
          rw [List.drop_append_of_le_length h7, ih (xs'.drop 7) ys hlen]
          rw [removeDates_cons, if_pos hd']
        · have hd' : digits8 (a :: xs') = false := by
            by_contra hcon
            rw [Bool.not_eq_false] at hcon
            have hlong : 8 ≤ (a :: xs').length := by
              by_contra hshort
              push_neg at hshort
              unfold digits8 at hcon
              simp only [Bool.and_eq_true, decide_eq_true_eq] at hcon
              omega
            have := digits8_append_long hlong (c :: ys)
            rw [show (a :: xs') ++ c :: ys = a :: (xs' ++ c :: ys) from rfl] at this
            rw [this, hcon] at hd
            exact hd rfl
          rw [if_neg hd]
          rw [ih xs' ys (by simp only [List.length_cons] at h; omega)]
          rw [removeDates_cons, if_neg (by simp [hd'])]
          rfl
  exact fun xs ys => main xs.length xs ys (Nat.le_refl _)

theorem findTicket_cons (a : Char) (as : Str) :
    findTicket (a :: as) =
      if ((a :: as).takeWhile Char.isDigit).length ≥ 4 then
        some (((a :: as).takeWhile Char.isDigit).take 5)
      else findTicket as := rfl

theorem findTicket_cons_none {a : Char} {as : Str}
    (h : findTicket (a :: as) = none) :
    ¬((a :: as).takeWhile Char.isDigit).length ≥ 4 ∧ findTicket as = none := by
  unfold findTicket at h
  by_cases hc : ((a :: as).takeWhile Char.isDigit).length ≥ 4
  · rw [if_pos hc] at h
    exact absurd h (by simp)
  · rw [if_neg hc] at h
    exact ⟨hc, h⟩

theorem findTicket_append_skip {s : Str}
    (hs : ∀ (d : Char) (t : Str), s = d :: t → d.isDigit = false) :
    ∀ {P : Str}, findTicket P = none → findTicket (P ++ s) = findTicket s := by
  have htws : s.takeWhile Char.isDigit = [] := by
    rcases he : s with _ | ⟨d, t⟩
    · rfl
    · simp [List.takeWhile_cons, hs d t he]
  intro P
  induction P with
  | nil => intro _; rfl
  | cons a P' ih =>
    intro hP
    obtain ⟨hlt, hP'⟩ := findTicket_cons_none hP
    show findTicket (a :: (P' ++ s)) = findTicket s
    have hrun : ((a :: (P' ++ s)).takeWhile Char.isDigit).length < 4 := by
      rw [show a :: (P' ++ s) = (a :: P') ++ s from rfl, List.takeWhile_append]
      split_ifs with hall
      · rw [htws]
        simp only [List.append_nil]
        rw [← hall]
        omega
      · omega
    rw [findTicket_cons, if_neg (by omega)]
    exact ih hP'

theorem findTicket_digits {d : Str} (hd : d.all Char.isDigit = true)
    (hd4 : 4 ≤ d.length) (hd5 : d.length ≤ 5) {s : Str}
    (hs : ∀ (x : Char) (t : Str), s = x :: t → x.isDigit = false) :
    findTicket (d ++ s) = some d := by
  have htws : s.takeWhile Char.isDigit = [] := by
    rcases he : s with _ | ⟨x, t⟩
    · rfl
    · simp [List.takeWhile_cons, hs x t he]
  have htwd : d.takeWhile Char.isDigit = d :=
    List.takeWhile_eq_self_iff.mpr (List.all_eq_true.mp hd)
  rcases d with _ | ⟨d0, d'⟩
  · simp at hd4
  · show findTicket (d0 :: (d' ++ s)) = _
    have hrun : (d0 :: (d' ++ s)).takeWhile Char.isDigit = d0 :: d' := by
      rw [show d0 :: (d' ++ s) = (d0 :: d') ++ s from rfl, List.takeWhile_append]
      rw [htwd]
      simp [htws]
    unfold findTicket
    rw [hrun, if_pos (by simpa using hd4)]
    rw [List.take_of_length_le hd5]

theorem lowerChar_digit {c : Char} (h : c.isDigit = true) : lowerChar c = c := by
  simp only [Char.isDigit, Bool.and_eq_true, decide_eq_true_eq] at h
  unfold lowerChar
  rw [if_neg]
  rintro ⟨h1, h2⟩
  have g1' : ('A' : Char).val ≤ c.val := Char.le_def.mp h1
  have g2' : c.val ≤ ('9' : Char).val := Char.le_def.mp h.2
  have g1 : (65 : Nat) ≤ c.val.toNat := g1'
  have g2 : c.val.toNat ≤ 57 := g2'
  omega

theorem goToLower_digits : ∀ {d : Str}, d.all Char.isDigit = true →
    goToLower d = d := by
  intro d
  induction d with
  | nil => intro _; rfl
  | cons x xs ih =>
    intro hd
    simp only [List.all_cons, Bool.and_eq_true] at hd
    show lowerChar x :: goToLower xs = x :: xs
    rw [lowerChar_digit hd.1, ih hd.2]

theorem goContains_inner {s pre mid post : Str}
    (h : goContains s (pre ++ mid ++ post) = true) : goContains s mid = true :=
  goContains_iff.mpr ((List.infix_append pre mid post).trans (goContains_iff.mp h))

/-- Claim C8 counterexample: a prefix with its own 4-digit run steals the
leftmost ticket match (`1234abcd/5678-x` yields ticket `1234`, not `5678`),
and removing an 8-digit date run can manufacture a `fix` substring that the
original name never contained (`fi20250620x` is classified `fix`), so both
the ticket clause and the type clause fail as stated over the raw name. -/
theorem C8_counterexample :
    ExtractCommitDetails (str "1234abcd/5678-x") = ([], str "1234") ∧
    ExtractCommitDetails (str "fi20250620x") = (str "fix", []) :=
  ⟨by decide, by decide⟩

/-- Claim C8 (amended): for a branch name `{prefix}/{4-5 digits}-{rest}`
whose lowercased, date-stripped prefix contains no 4-digit run, the digit
run is returned as the ticket even when an 8-digit date appears in the
rest; on the lowercased date-stripped name, a `fix` substring yields type
`fix`, a `feat` substring without `fix` yields `feat`, and with neither
substring and no ticket match both results are empty. -/
theorem C8_ticket_and_type (p d r : Str)
    (hd : d.all Char.isDigit = true) (hd4 : 4 ≤ d.length) (hd5 : d.length ≤ 5)
    (hp : findTicket (removeDates (goToLower p)) = none) :
    (ExtractCommitDetails (p ++ str "/" ++ d ++ str "-" ++ r)).2 = d ∧
    (∀ bn : Str, goContains (removeDates (goToLower bn)) (str "fix") = true →
      (ExtractCommitDetails bn).1 = str "fix") ∧
    (∀ bn : Str, goContains (removeDates (goToLower bn)) (str "fix") = false →
      goContains (removeDates (goToLower bn)) (str "feat") = true →
      (ExtractCommitDetails bn).1 = str "feat") ∧
    (∀ bn : Str, goContains (removeDates (goToLower bn)) (str "fix") = false →
      goContains (removeDates (goToLower bn)) (str "feat") = false →
      findTicket (removeDates (goToLower bn)) = none →
      ExtractCommitDetails bn = ([], [])) := by
  have hbugfix : ∀ bn' : Str, goContains bn' (str "fix") = false →
      goContains bn' (str "bugfix") = false := by
    intro bn' hfix
    rcases hb : goContains bn' (str "bugfix") with _ | _
    · rfl
    · rw [show str "bugfix" = str "bug" ++ str "fix" ++ [] by decide] at hb
      rw [goContains_inner hb] at hfix
      exact absurd hfix (by simp)
  have hfeature : ∀ bn' : Str, goContains bn' (str "feat") = false →
      goContains bn' (str "feature") = false := by
    intro bn' hfeat
    rcases hb : goContains bn' (str "feature") with _ | _
    · rfl
    · rw [show str "feature" = [] ++ str "feat" ++ str "ure" by decide] at hb
      rw [goContains_inner hb] at hfeat
      exact absurd hfeat (by simp)
  refine ⟨?_, ?_, ?_, ?_⟩
  · have hshape : p ++ str "/" ++ d ++ str "-" ++ r = p ++ '/' :: (d ++ '-' :: r) := by
      rw [show str "/" = ['/'] from rfl, show str "-" = ['-'] from rfl]
      simp
    have hlow : goToLower (p ++ '/' :: (d ++ '-' :: r)) =
        goToLower p ++ '/' :: (d ++ '-' :: goToLower r) := by
      unfold goToLower
      simp only [List.map_append, List.map_cons]
      rw [show lowerChar '/' = '/' from rfl, show lowerChar '-' = '-' from rfl,
        show List.map lowerChar d = d from goToLower_digits hd]
    have hrem : removeDates (goToLower p ++ '/' :: (d ++ '-' :: goToLower r)) =
        removeDates (goToLower p) ++ '/' :: (d ++ '-' :: removeDates (goToLower r)) := by
      rw [removeDates_split (by decide : ('/' : Char).isDigit = false),
        removeDates_split (by decide : ('-' : Char).isDigit = false) d (goToLower r),
        removeDates_short (by omega : d.length < 8)]
    have hskip : findTicket (removeDates (goToLower p) ++
        '/' :: (d ++ '-' :: removeDates (goToLower r))) =
        findTicket ('/' :: (d ++ '-' :: removeDates (goToLower r))) :=
      findTicket_append_skip
        (fun x t hxt => by rw [List.cons.injEq] at hxt; rw [← hxt.1]; decide) hp
    have hft : findTicket ('/' :: (d ++ '-' :: removeDates (goToLower r))) = some d := by
      rw [findTicket_cons, if_neg (by simp [List.takeWhile_cons])]
      exact findTicket_digits hd hd4 hd5
        (fun x t hxt => by rw [List.cons.injEq] at hxt; rw [← hxt.1]; decide)
    rw [hshape]
    simp only [ExtractCommitDetails, hlow, hrem, hskip, hft]
  · intro bn hfix
    simp only [ExtractCommitDetails, hfix, Bool.true_or, if_true]
  · intro bn hfix hfeat
    simp only [ExtractCommitDetails, hfix, hbugfix _ hfix, hfeat,
      Bool.or_self, Bool.or_true]
    simp
  · intro bn h1 h2 h3
    simp only [ExtractCommitDetails, h1, h2, hbugfix _ h1, hfeature _ h2, h3,
      Bool.or_self]
    simp

/-- Claim C8 witness: `feature/5678-new-login-20250620` yields ticket
`5678` despite the embedded date. -/
theorem C8_witness :
    (str "5678").all Char.isDigit = true ∧
    4 ≤ (str "5678" : Str).length ∧ (str "5678" : Str).length ≤ 5 ∧
    findTicket (removeDates (goToLower (str "feature"))) = none ∧
    (ExtractCommitDetails (str "feature" ++ str "/" ++ str "5678" ++
      str "-" ++ str "new-login-20250620")).2 = str "5678" :=
  ⟨by decide, by decide, by decide, by decide,
    (C8_ticket_and_type (str "feature") (str "5678") (str "new-login-20250620")
      (by decide) (by decide) (by decide) (by decide)).1⟩

/-- The nine cases of the Go unit test `TestExtractCommitDetails` hold for
the embedding. -/
theorem extractCommitDetails_go_test_table :
    ExtractCommitDetails (str "feature/1234-new-login") = (str "feat", str "1234") ∧
    ExtractCommitDetails (str "fix/5678-fix-bug") = (str "fix", str "5678") ∧
    ExtractCommitDetails (str "bugfix/8765-another-bug") = (str "fix", str "8765") ∧
    ExtractCommitDetails (str "feat/4321-add-feature") = (str "feat", str "4321") ∧
    ExtractCommitDetails (str "hotfix/9999-critical-issue") = (str "fix", str "9999") ∧
    ExtractCommitDetails (str "release/v1.0") = ([], []) ∧
    ExtractCommitDetails (str "no-ticket-feat") = (str "feat", []) ∧
    ExtractCommitDetails (str "12345-fix-something") = (str "fix", str "12345") ∧
    ExtractCommitDetails (str "feature/1234-20250620-new-login") = (str "feat", str "1234") :=
  ⟨by decide, by decide, by decide, by decide, by decide, by decide, by decide,
    by decide, by decide⟩

/-! ### Spec-modelled structured review decode (for claim C6)

The spec's review parsing demands an up-front JSON decode ("attempt
structured (JSON) decode of the whole response first").  The source's
review path has no such decode, so the following definitions are modelled
from the spec's words, to be compared with the code's `reviewCodeNormalize`. -/

/-- JSON values (numbers restricted to integers — the `Review` shape only
carries integer line numbers). -/
inductive JVal where
  | jnull
  | jbool (b : Bool)
  | jnum (n : Int)
  | jstr (s : Str)
  | jarr (xs : List JVal)
  | jobj (fields : List (Str × JVal))

/-- JSON insignificant whitespace. -/
def jsonWs (c : Char) : Bool := c = ' ' || c = '\t' || c = '\n' || c = '\r'

/-- Skip insignificant whitespace. -/
def skipWs (s : Str) : Str := s.dropWhile jsonWs

/-- Scan a JSON string body after the opening quote; returns the decoded
content and the remainder after the closing quote. -/
def jscanStr : Str → Option (Str × Str)
  | [] => none
  | c :: rest =>
    if c = '"' then some ([], rest)
    else if c = '\\' then
      match rest with
      | [] => none
      | e :: rest2 =>
        let dec : Option Char :=
          if e = '"' then some '"'
          else if e = '\\' then some '\\'
          else if e = '/' then some '/'
          else if e = 'n' then some '\n'
          else if e = 't' then some '\t'
          else if e = 'r' then some '\r'
          else none
        match dec with
        | none => none
        | some ch => (jscanStr rest2).map (fun p => (ch :: p.1, p.2))
    else (jscanStr rest).map (fun p => (c :: p.1, p.2))

/-- Decimal digits to a natural number. -/
def digitsToNat (ds : Str) : Nat :=
  ds.foldl (fun acc c => acc * 10 + (c.toNat - 48)) 0

/-- Scan an integer JSON number (fractions and exponents are rejected). -/
def jscanNum (s : Str) : Option (Int × Str) :=
  let neg := match s with | '-' :: _ => true | _ => false
  let s1 := if neg then s.drop 1 else s
  let ds := s1.takeWhile Char.isDigit
  let rest := s1.drop ds.length
  if ds = [] then none
  else
    let ok : Bool :=
      match rest with
      | c :: _ => !(c = '.' || c = 'e' || c = 'E')
      | [] => true
    if ok then
      some ((if neg then -(digitsToNat ds : Int) else (digitsToNat ds : Int)), rest)
    else none

/-- Grammar entry selector for the fuel-indexed JSON scanner. -/
inductive JMode where
  | val
  | items
  | fields

/-- Fuel-indexed recursive-descent JSON scanner: `val` parses one value,
`items` the element list after `[` (returned as `jarr`), `fields` the member
list after an opening brace (returned as `jobj`). -/
def jparseAny : Nat → JMode → Str → Option (JVal × Str)
  | 0, _, _ => none
  | fuel + 1, JMode.val, s =>
    match skipWs s with
    | [] => none
    | c :: rest =>
      if c = '"' then (jscanStr rest).map (fun p => (JVal.jstr p.1, p.2))
      else if c = '[' then
        match skipWs rest with
        | ']' :: rest2 => some (JVal.jarr [], rest2)
        | _ => jparseAny fuel JMode.items rest
      else if c = '\x7b' then
        match skipWs rest with
        | '\x7d' :: rest2 => some (JVal.jobj [], rest2)
        | _ => jparseAny fuel JMode.fields rest
      else if c = 'n' then
        if hasPref (c :: rest) (str "null") then
          some (JVal.jnull, (c :: rest).drop 4)
        else none
      else if c = 't' then
        if hasPref (c :: rest) (str "true") then
          some (JVal.jbool true, (c :: rest).drop 4)
        else none
      else if c = 'f' then
        if hasPref (c :: rest) (str "false") then
          some (JVal.jbool false, (c :: rest).drop 5)
        else none
      else (jscanNum (c :: rest)).map (fun p => (JVal.jnum p.1, p.2))
  | fuel + 1, JMode.items, s =>
    match jparseAny fuel JMode.val s with
    | some (v, rest) =>
      (match skipWs rest with
       | ',' :: rest2 =>
         match jparseAny fuel JMode.items rest2 with
         | some (JVal.jarr xs, rest3) => some (JVal.jarr (v :: xs), rest3)
         | _ => none
       | ']' :: rest2 => some (JVal.jarr [v], rest2)
       | _ => none)
    | none => none
  | fuel + 1, JMode.fields, s =>
    match skipWs s with
    | '"' :: rest =>
      (match jscanStr rest with
       | some (key, rest2) =>
         (match skipWs rest2 with
          | ':' :: rest3 =>
            (match jparseAny fuel JMode.val rest3 with
             | some (v, rest4) =>
               (match skipWs rest4 with
                | ',' :: rest5 =>
                  (match jparseAny fuel JMode.fields rest5 with
                   | some (JVal.jobj fs, rest6) =>
                     some (JVal.jobj ((key, v) :: fs), rest6)
                   | _ => none)
                | '\x7d' :: rest5 => some (JVal.jobj [(key, v)], rest5)
                | _ => none)
             | none => none)
          | _ => none)
       | none => none)
    | _ => none

/-- Parse a whole document: one value plus trailing whitespace. -/
def jparse (s : Str) : Option JVal :=
  match jparseAny (s.length + 1) JMode.val s with
  | some (v, rest) => if skipWs rest = [] then some v else none
  | none => none

/-- Field lookup with Go `encoding/json`'s case-insensitive member-name
matching. -/
def jfieldLookup (fs : List (Str × JVal)) (name : Str) : Option JVal :=
  (fs.find? (fun p => goToLower p.1 == goToLower name)).map Prod.snd

/-- String-typed field: absent or null decodes to the zero value, any
non-string value is a decode error. -/
def jAsStr : Option JVal → Option Str
  | none => some []
  | some (JVal.jstr s) => some s
  | some JVal.jnull => some []
  | some _ => none

/-- Integer-typed field. -/
def jAsInt : Option JVal → Option Int
  | none => some 0
  | some (JVal.jnum n) => some n
  | some JVal.jnull => some 0
  | some _ => none

/-- Decode one `Issue` object. -/
def jAsIssue : JVal → Option Issue
  | JVal.jobj fs => do
    let severity ← jAsStr (jfieldLookup fs (str "severity"))
    let itype ← jAsStr (jfieldLookup fs (str "type"))
    let file ← jAsStr (jfieldLookup fs (str "file"))
    let line ← jAsInt (jfieldLookup fs (str "line"))
    let description ← jAsStr (jfieldLookup fs (str "description"))
    let suggestion ← jAsStr (jfieldLookup fs (str "suggestion"))
    pure { severity := severity, itype := itype, file := file, line := line,
           description := description, suggestion := suggestion }
  | JVal.jnull =>
    some { severity := [], itype := [], file := [], line := 0,
           description := [], suggestion := [] }
  | _ => none

/-- Decode one `Suggestion` object. -/
def jAsSuggestion : JVal → Option Suggestion
  | JVal.jobj fs => do
    let stype ← jAsStr (jfieldLookup fs (str "type"))
    let file ← jAsStr (jfieldLookup fs (str "file"))
    let line ← jAsInt (jfieldLookup fs (str "line"))
    let description ← jAsStr (jfieldLookup fs (str "description"))
    let ex ← jAsStr (jfieldLookup fs (str "example"))
    pure { stype := stype, file := file, line := line,
           description := description, exampleText := ex }
  | JVal.jnull =>
    some { stype := [], file := [], line := 0, description := [],
           exampleText := [] }
  | _ => none

/-- Decode one `SecurityRisk` object. -/
def jAsSecurityRisk : JVal → Option SecurityRisk
  | JVal.jobj fs => do
    let severity ← jAsStr (jfieldLookup fs (str "severity"))
    let rtype ← jAsStr (jfieldLookup fs (str "type"))
    let description ← jAsStr (jfieldLookup fs (str "description"))
    let mitigation ← jAsStr (jfieldLookup fs (str "mitigation"))
    pure { severity := severity, rtype := rtype, description := description,
           mitigation := mitigation }
  | JVal.jnull =>
    some { severity := [], rtype := [], description := [], mitigation := [] }
  | _ => none

/-- Decode one `PerformanceIssue` object. -/
def jAsPerformanceIssue : JVal → Option PerformanceIssue
  | JVal.jobj fs => do
    let ptype ← jAsStr (jfieldLookup fs (str "type"))
    let description ← jAsStr (jfieldLookup fs (str "description"))
    let impact ← jAsStr (jfieldLookup fs (str "impact"))
    let solution ← jAsStr (jfieldLookup fs (str "solution"))
    pure { ptype := ptype, description := description, impact := impact,
           solution := solution }
  | JVal.jnull =>
    some { ptype := [], description := [], impact := [], solution := [] }
  | _ => none

/-- Array-typed field: absent or null is the empty list. -/
def jAsList {α : Type} (f : JVal → Option α) : Option JVal → Option (List α)
  | none => some []
  | some JVal.jnull => some []
  | some (JVal.jarr xs) => xs.mapM f
  | some _ => none

/-- Modelled from the spec: "attempt structured (JSON) decode of the whole
response first" against the `Review` shape (missing from the source's
review path, which never decodes JSON).  Mirrors Go `json.Unmarshal` into
`ai.Review`: a JSON object with case-insensitively matched exported field
names, zero values for absent members, and failure on type mismatches. -/
def decodeReviewJSON (s : Str) : Option Review :=
  match jparse s with
  | some (JVal.jobj fs) => do
    let summary ← jAsStr (jfieldLookup fs (str "summary"))
    let issues ← jAsList jAsIssue (jfieldLookup fs (str "issues"))
    let suggestions ← jAsList jAsSuggestion (jfieldLookup fs (str "suggestions"))
    let securityRisks ← jAsList jAsSecurityRisk (jfieldLookup fs (str "securityrisks"))
    let performance ← jAsList jAsPerformanceIssue (jfieldLookup fs (str "performance"))
    pure { summary := summary, issues := issues, suggestions := suggestions,
           securityRisks := securityRisks, performance := performance }
  | some JVal.jnull => some emptyReview
  | some _ => none
  | none => none

/-- Modelled from the spec: review normalization with the JSON-first,
text-fallback strategy the spec describes (the source's review path uses
the text scanner unconditionally). -/
def reviewNormalizeSpec (text : Str) (options : ReviewOptions) : Review :=
  match decodeReviewJSON text with
  | some r => r
  | none => parseReviewResponse text options

/-- Claim C6 counterexample: `\x7b"Summary": "all good"\x7d` is a valid
JSON document of the `Review` shape — the spec-modelled JSON-first
normalizer decodes its summary — but the code's review normalization runs
the heading/bullet scanner on it and returns the empty review, so review
parsing is not JSON-first. -/
theorem C6_counterexample :
    decodeReviewJSON (str "\x7b\"Summary\": \"all good\"\x7d") =
      some { summary := str "all good", issues := [], suggestions := [],
             securityRisks := [], performance := [] } ∧
    reviewNormalizeSpec (str "\x7b\"Summary\": \"all good\"\x7d") reviewOpts0 =
      { summary := str "all good", issues := [], suggestions := [],
        securityRisks := [], performance := [] } ∧
    reviewCodeNormalize (str "\x7b\"Summary\": \"all good\"\x7d") reviewOpts0 =
      emptyReview ∧
    (str "all good" : Str) ≠ [] :=
  ⟨by decide, by decide, by decide, by decide⟩

/-- Claim C6 (amended): the code's review normalization applies the
heading/bullet scanner to every response and attempts no JSON decode — any
single-line response (in particular any one-line JSON document) produces
the empty review structure. -/
theorem C6_single_line_scanned (text : Str) (options : ReviewOptions)
    (h : '\n' ∉ text) :
    reviewCodeNormalize text options = emptyReview := by
  unfold reviewCodeNormalize parseReviewResponse
  rw [splitChar_of_not_mem h]
  simp only [List.foldl_cons, List.foldl_nil]
  by_cases hh : hasPref (goTrimSpace text) (str "## ") = true
  · have hstep : scanReviewLine ([], []) text =
        ([(renameSection (goToLower (dropPref (goTrimSpace text) (str "## "))), [])],
         renameSection (goToLower (dropPref (goTrimSpace text) (str "## ")))) := by
      simp [scanReviewLine, mapSet, hh]
    rw [hstep]
    set sec := renameSection (goToLower (dropPref (goTrimSpace text) (str "## ")))
      with hsec
    have hg : ∀ k : Str, mapGet [(sec, [])] k = none ∨
        mapGet [(sec, [])] k = some [] := by
      intro k
      unfold mapGet
      by_cases hq : ((sec, ([] : Str)).1 == k) = true
      · right
        simp [List.find?_cons, hq]
      · left
        simp [List.find?_cons, hq]
    rcases hg (str "summary") with h1 | h1 <;>
      rcases hg (str "issues") with h2 | h2 <;>
      rcases hg (str "suggestions") with h3 | h3 <;>
      rcases hg (str "security risks") with h4 | h4 <;>
      rcases hg (str "performance issues") with h5 | h5 <;>
      (rw [h1, h2, h3, h4, h5]; rfl)
  · have hstep : scanReviewLine ([], []) text = ([], []) := by
      simp [scanReviewLine, hh]
    rw [hstep]
    rfl

/-- Claim C6 witness: a concrete one-line JSON document is handled by the
scanner and yields the empty review. -/
theorem C6_witness :
    ('\n' : Char) ∉ str "\x7b\"ok\": true\x7d" ∧
    reviewCodeNormalize (str "\x7b\"ok\": true\x7d") reviewOpts0 = emptyReview :=
  ⟨by decide, C6_single_line_scanned (str "\x7b\"ok\": true\x7d") reviewOpts0 (by decide)⟩

end Aig
